import Mathlib

/-!
Verification of the template rendering engine of the vanilla-TS SPA
repository.  The engine is the `View` function (together with its helper
`getValueFromContext`): six sequential regex-replacement passes over the
raw template string (XML loops, Handlebars loops, XML conditionals,
Handlebars conditionals, XML text tags, Handlebars variables), followed by
materialization of the substituted markup.

The shallow embedding below models template text as `List Char` and each
regex-replacement pass as a left-to-right scanner that, at every position,
attempts the source regex's match (translated to explicit maximal-munch /
shortest-lazy-body combinators, which agree with the backtracking regex
engine here because every adjacent character class in the source patterns
is disjoint from its follower) and otherwise advances one character, just
as a global `String.replace` does.  JavaScript values reachable from a
render context are modelled by the inductive type `Value`; property access
models own properties (an object's literal fields; an array's `length` and
canonical numeric indices).  Prototype-inherited property names and IEEE
float subtleties (NaN, -0) are outside the model, and no claim below
probes them.  The `in` operator applied to a primitive throws a TypeError
in JavaScript; the loop passes therefore return `Except Unit _`, with
`Except.error ()` marking that thrown TypeError.
-/

namespace VanillaSpa

/-- A JavaScript value reachable from a render context: string, number
(integral numbers only are modelled), boolean, array, or plain object
given by its own enumerable fields (first occurrence wins on lookup, as a
JS object literal cannot repeat a key). -/
inductive Value where
  | str (s : String)
  | num (n : Int)
  | bool (b : Bool)
  | arr (xs : List Value)
  | obj (fields : List (String × Value))

/-- A render context: the fields of the plain object passed to `View`. -/
abbrev Ctx := List (String × Value)

/-! ## Regex-fragment combinators

Each source regex is compiled into a committed-choice matcher built from
the combinators below.  Maximal munch for the `\s` / `\w` / `[\w.]`
classes is equivalent to the regex engine's greedy-with-backtracking
behaviour because in every source pattern the character following such a
class is outside the class. -/

/-- Characters of the regex class `\w` (ASCII word characters). -/
def isWordChar (c : Char) : Bool :=
  c.isAlpha || c.isDigit || c == '_'

/-- Characters of `[\w.]` (condition paths). -/
def isWordDotChar (c : Char) : Bool :=
  isWordChar c || c == '.'

/-- Characters of the regex class `\s` (the ASCII whitespace portion). -/
def isSpaceChar (c : Char) : Bool :=
  c == ' ' || c == '\t' || c == '\n' || c == '\r' || c == '\x0b' || c == '\x0c'

/-- The character list of a string literal. -/
def strL (s : String) : List Char :=
  s.data

/-- Expect the literal `lit` at the head of `s`; return the remainder. -/
def stripLit : List Char → List Char → Option (List Char)
  | [], s => some s
  | _ :: _, [] => none
  | l :: ls, c :: cs => if c == l then stripLit ls cs else none

/-- A nonempty maximal run of characters satisfying `p` (regex `p+`). -/
def takeClass1 (p : Char → Bool) (s : List Char) : Option (List Char × List Char) :=
  let w := s.takeWhile p
  if w.isEmpty then none else some (w, s.drop w.length)

/-- A possibly-empty maximal run of characters satisfying `p` (regex `p*`,
used only where the following literal is outside the class). -/
def skipClass (p : Char → Bool) (s : List Char) : List Char :=
  s.dropWhile p

/-- Shortest-match split: the text before the first occurrence of the
literal `delim`, and the remainder after that occurrence.  This is the
lazy `([\s\S]*?)` body capture followed by the closing literal. -/
def splitAtFirst (delim : List Char) : List Char → Option (List Char × List Char)
  | [] =>
    match stripLit delim [] with
    | some rest => some ([], rest)
    | none => none
  | c :: cs =>
    match stripLit delim (c :: cs) with
    | some rest => some ([], rest)
    | none =>
      match splitAtFirst delim cs with
      | some (pre, rest) => some (c :: pre, rest)
      | none => none


mutual

/-- JavaScript `String(v)`: identity on strings, decimal for numbers,
`true`/`false` for booleans, comma-joined element strings for arrays
(Array.prototype.toString), and `[object Object]` for plain objects. -/
def jsString : Value → String
  | .str s => s
  | .num n => toString n
  | .bool b => if b then "true" else "false"
  | .arr xs => jsStringElems xs
  | .obj _ => "[object Object]"

/-- Array elements joined with commas, each stringified recursively. -/
def jsStringElems : List Value → String
  | [] => ""
  | [v] => jsString v
  | v :: w :: vs => jsString v ++ "," ++ jsStringElems (w :: vs)

end

/-- JavaScript `s.startsWith(pre)`. -/
def strStartsWith (s pre : String) : Bool :=
  (stripLit pre.data s.data).isSome

/-- JavaScript `String.prototype.trim` (the ASCII whitespace portion of
its character set). -/
def jsTrim (s : String) : String :=
  String.mk (((s.data.dropWhile isSpaceChar).reverse.dropWhile isSpaceChar).reverse)

/-- JavaScript `path.split(".")` on the character list. -/
def splitPath : List Char → List (List Char)
  | [] => [[]]
  | c :: cs =>
    if c == '.' then [] :: splitPath cs
    else
      match splitPath cs with
      | p :: ps => (c :: p) :: ps
      | [] => [[c]]

/-- Decimal parse accepting exactly nonempty all-digit strings (the
digits-only behaviour of `String.toNat?`, written recursively so that it
evaluates by `rfl`). -/
def toNatDigits : List Char → Option Nat :=
  go true 0
where
  go : Bool → Nat → List Char → Option Nat
    | true, _, [] => none
    | false, acc, [] => some acc
    | _, acc, c :: cs =>
      if c.isDigit then go false (acc * 10 + (c.toNat - 48)) cs else none

/-- JavaScript truthiness of `context[key]`-style access results:
`undefined` (here `none`), the empty string, numeric zero and `false` are
falsy; every other value, arrays and objects included, is truthy. -/
def jsTruthy : Option Value → Bool
  | none => false
  | some (.str s) => !(s == "")
  | some (.num n) => !(n == 0)
  | some (.bool b) => b
  | some (.arr _) => true
  | some (.obj _) => true

/-- Own-property lookup on a plain object field list. -/
def fieldLookup (fields : List (String × Value)) (k : String) : Option Value :=
  (fields.find? (fun kv => kv.1 == k)).map (fun kv => kv.2)

/-- `context[key]`: own-property lookup on the context object. -/
def lookupCtx (ctx : Ctx) (k : String) : Option Value :=
  fieldLookup ctx k

/-- Whether `typeof v === "object"` holds (arrays and plain objects; the
model has no `null`). -/
def isObjectType : Value → Bool
  | .arr _ => true
  | .obj _ => true
  | _ => false

/-- The JavaScript `k in v` test for object-typed `v`, own properties
only: a literal field of a plain object, or an array's `length` or one of
its canonical numeric indices. -/
def objHasKey : Value → String → Bool
  | .obj fs, k => fs.any (fun kv => kv.1 == k)
  | .arr xs, k =>
    k == "length" ||
      (match toNatDigits (strL k) with
       | some i => decide (i < xs.length) && (toString i == k)
       | none => false)
  | _, _ => false

/-- `v[k]` for object-typed `v`, own properties only. -/
def objGetKey : Value → String → Option Value
  | .obj fs, k => fieldLookup fs k
  | .arr xs, k =>
    if k == "length" then some (.num (Int.ofNat xs.length))
    else
      match toNatDigits (strL k) with
      | some i => xs.get? i
      | none => none
  | _, _ => none

/-- One step of the `reduce` inside `getValueFromContext`: keep the
accumulated value only while it is a truthy object having the segment as a
key; otherwise degrade to `undefined`. -/
def ctxStep (acc : Option Value) (key : String) : Option Value :=
  match acc with
  | some v => if isObjectType v && objHasKey v key then objGetKey v key else none
  | none => none

/-- The source's `getValueFromContext`: split the dot path and `reduce`
over the segments starting from the context object. -/
def getValueFromContext (ctx : Ctx) (path : String) : Option Value :=
  ((splitPath (strL path)).map String.mk).foldl ctxStep (some (.obj ctx))

/-! ## Matchers, one per source regex -/

/-- Source regex (XML loop opener, line 57):
the pattern matching an XML loop directive at the current position,
capturing the key, the lazy body, and the remainder of the input. -/
def matchEachXmlAt (s : List Char) : Option (String × List Char × List Char) := do
  let s1 ← stripLit (strL "<each") s
  let (_, s2) ← takeClass1 isSpaceChar s1
  let s3 ← stripLit (strL "data=\"") s2
  let (key, s4) ← takeClass1 isWordChar s3
  let s5 ← stripLit (strL "\">") s4
  let (body, rest) ← splitAtFirst (strL "</each>") s5
  return (String.mk key, body, rest)

/-- Source regex (Handlebars loop opener, line 94), capturing key, lazy
body up to the first closing marker, and remainder. -/
def matchEachHbsAt (s : List Char) : Option (String × List Char × List Char) := do
  let s1 ← stripLit (strL "\x7b\x7b#each") s
  let (_, s2) ← takeClass1 isSpaceChar s1
  let (key, s3) ← takeClass1 isWordChar s2
  let s4 ← stripLit (strL "\x7d\x7d") s3
  let (body, rest) ← splitAtFirst (strL "\x7b\x7b/each\x7d\x7d") s4
  return (String.mk key, body, rest)

/-- Source regex (XML conditional opener, line 115), capturing the
condition path, the lazy body, and the remainder. -/
def matchIfXmlAt (s : List Char) : Option (String × List Char × List Char) := do
  let s1 ← stripLit (strL "<if") s
  let (_, s2) ← takeClass1 isSpaceChar s1
  let s3 ← stripLit (strL "data=\"") s2
  let (cond, s4) ← takeClass1 isWordDotChar s3
  let s5 ← stripLit (strL "\">") s4
  let (body, rest) ← splitAtFirst (strL "</if>") s5
  return (String.mk cond, body, rest)

/-- Source regex (Handlebars conditional opener, line 157). -/
def matchIfHbsAt (s : List Char) : Option (String × List Char × List Char) := do
  let s1 ← stripLit (strL "\x7b\x7b#if") s
  let (_, s2) ← takeClass1 isSpaceChar s1
  let (cond, s3) ← takeClass1 isWordDotChar s2
  let s4 ← stripLit (strL "\x7d\x7d") s3
  let (body, rest) ← splitAtFirst (strL "\x7b\x7b/if\x7d\x7d") s4
  return (String.mk cond, body, rest)

/-- Source regex (XML text tag, lines 72 and 194), capturing the key and
the remainder. -/
def matchTextTagAt (s : List Char) : Option (String × List Char) := do
  let s1 ← stripLit (strL "<text") s
  let (_, s2) ← takeClass1 isSpaceChar s1
  let s3 ← stripLit (strL "data=\"") s2
  let (key, s4) ← takeClass1 isWordChar s3
  let s5 ← stripLit (strL "\"") s4
  let s6 := skipClass isSpaceChar s5
  let s7 ← stripLit (strL "/>") s6
  return (String.mk key, s7)

/-- Source regex (Handlebars variable, lines 80, 105 and 199), capturing
the key and the remainder. -/
def matchHbsVarAt (s : List Char) : Option (String × List Char) := do
  let s1 ← stripLit (strL "\x7b\x7b") s
  let s2 := skipClass isSpaceChar s1
  let (key, s3) ← takeClass1 isWordChar s2
  let s4 := skipClass isSpaceChar s3
  let s5 ← stripLit (strL "\x7d\x7d") s4
  return (String.mk key, s5)

/-- The optional `(?:\s*\/)?` group: greedily consume whitespace followed
by a slash, committing only when the slash is present (the whole optional
group backtracks to empty otherwise).  Returns the consumed text and the
remainder. -/
def optSlash (s : List Char) : List Char × List Char :=
  let sp := s.takeWhile isSpaceChar
  match stripLit (strL "/") (s.drop sp.length) with
  | some rest => (sp ++ strL "/", rest)
  | none => ([], s)

/-- Source regex (XML else-if / else marker used by the `split` on line
121): matches the marker at the current position, returning the captured
group text (the tag without the surrounding angle brackets) and the
remainder.  The `elseif` alternative is tried before `else`, as in the
source alternation. -/
def matchCondTagXmlAt (s : List Char) : Option (String × List Char) := do
  let s1 ← stripLit (strL "<") s
  match (do
      let a1 ← stripLit (strL "elseif") s1
      let (sp, a2) ← takeClass1 isSpaceChar a1
      let a3 ← stripLit (strL "data=\"") a2
      let (path, a4) ← takeClass1 isWordDotChar a3
      let a5 ← stripLit (strL "\"") a4
      let (opt, a6) := optSlash a5
      let a7 ← stripLit (strL ">") a6
      return (strL "elseif" ++ sp ++ strL "data=\"" ++ path ++ strL "\"" ++ opt, a7) :
        Option (List Char × List Char)) with
  | some (tag, rest) => some (String.mk tag, rest)
  | none => do
    let b1 ← stripLit (strL "else") s1
    let (opt, b2) := optSlash b1
    let b3 ← stripLit (strL ">") b2
    return (String.mk (strL "else" ++ opt), b3)

/-- Source regex (Handlebars else-if / else marker used by the `split` on
line 163): matches the marker at the current position, returning the
captured group text and the remainder. -/
def matchCondTagHbsAt (s : List Char) : Option (String × List Char) := do
  let s1 ← stripLit (strL "\x7b\x7b") s
  let s2 := skipClass isSpaceChar s1
  match (do
      let a1 ← stripLit (strL "else if") s2
      let (sp, a2) ← takeClass1 isSpaceChar a1
      let (path, a3) ← takeClass1 isWordDotChar a2
      return (strL "else if" ++ sp ++ path, a3) :
        Option (List Char × List Char)) with
  | some (tag, a3) =>
    let a4 := skipClass isSpaceChar a3
    match stripLit (strL "\x7d\x7d") a4 with
    | some rest => some (String.mk tag, rest)
    | none => none
  | none => do
    let b1 ← stripLit (strL "else") s2
    let b2 := skipClass isSpaceChar b1
    let b3 ← stripLit (strL "\x7d\x7d") b2
    return ("else", b3)

/-- Source regex (the un-anchored `tag.match` on line 133 extracting an
else-if condition): search the tag text left to right for
the else-if marker shape and capture its path. -/
def matchElseifPathAt (s : List Char) : Option String := do
  let s1 ← stripLit (strL "elseif") s
  let (_, s2) ← takeClass1 isSpaceChar s1
  let s3 ← stripLit (strL "data=\"") s2
  let (path, s4) ← takeClass1 isWordDotChar s3
  let _ ← stripLit (strL "\"") s4
  return String.mk path

/-- Left-to-right search used by `tag.match` (line 133). -/
def searchElseifPath : List Char → Option String
  | [] => none
  | c :: cs =>
    match matchElseifPathAt (c :: cs) with
    | some p => some p
    | none => searchElseifPath cs

/-! ## Replacement drivers

A global-flag `String.replace` scans left to right; at each position it
either takes the leftmost match (the replacement text is not rescanned;
scanning resumes after the match) or advances one character.  The drivers
below implement exactly that scan.  They recurse on a fuel argument equal
to the initial string length, which suffices because every matcher
consumes at least one character; the out-of-fuel branch is unreachable at
the stated fuel and returns the remainder unchanged. -/

/-- Pure replacement scan: `m` yields the replacement text and the rest of
the input after the match. -/
def replaceScanF (m : List Char → Option (List Char × List Char)) :
    Nat → List Char → List Char
  | _, [] => []
  | 0, s => s
  | fuel + 1, c :: cs =>
    match m (c :: cs) with
    | some (repl, rest) => repl ++ replaceScanF m fuel rest
    | none => c :: replaceScanF m fuel cs

/-- A full pure replacement pass over a string. -/
def replaceScan (m : List Char → Option (List Char × List Char))
    (s : List Char) : List Char :=
  replaceScanF m s.length s

/-- Replacement scan whose per-match callback may throw (models the loop
passes' per-item substitution, whose `in` operator throws a TypeError on a
primitive element): the first throw aborts the whole pass. -/
def replScanEF (m : List Char → Option (String × List Char))
    (f : String → Except Unit String) :
    Nat → List Char → Except Unit (List Char)
  | _, [] => .ok []
  | 0, s => .ok s
  | fuel + 1, c :: cs =>
    match m (c :: cs) with
    | some (key, rest) =>
      match f key with
      | .error e => .error e
      | .ok repl =>
        match replScanEF m f fuel rest with
        | .error e => .error e
        | .ok out => .ok (strL repl ++ out)
    | none =>
      match replScanEF m f fuel cs with
      | .error e => .error e
      | .ok out => .ok (c :: out)

/-- A full throwing replacement pass over a string. -/
def replScanE (m : List Char → Option (String × List Char))
    (f : String → Except Unit String) (s : List Char) : Except Unit (List Char) :=
  replScanEF m f s.length s

/-- `String.split` with a capturing regex (lines 121 and 163): the piece
before the first marker, then a list of (captured marker, following
piece) pairs. -/
def splitScanF (m : List Char → Option (String × List Char)) :
    Nat → List Char → List Char × List (String × List Char)
  | _, [] => ([], [])
  | 0, s => (s, [])
  | fuel + 1, c :: cs =>
    match m (c :: cs) with
    | some (tag, rest) =>
      let (piece, pairs) := splitScanF m fuel rest
      ([], (tag, piece) :: pairs)
    | none =>
      let (first, pairs) := splitScanF m fuel cs
      (c :: first, pairs)

/-- A full marker split over a string. -/
def splitScan (m : List Char → Option (String × List Char))
    (s : List Char) : List Char × List (String × List Char) :=
  splitScanF m s.length s

/-! ## Loop expansion (source lines 56-111) -/

/-- The loop-body callback `prop in item ? String(item[prop]) : ""`
(lines 73-75, 81-83, 105-107).  `in` applied to a primitive (string,
number, boolean) throws a TypeError, modelled as `Except.error ()`; on an
object or array it tests own properties. -/
def itemPropRepl (item : Value) (prop : String) : Except Unit String :=
  match item with
  | .obj fs =>
    .ok (match fieldLookup fs prop with
         | some v => jsString v
         | none => "")
  | .arr xs =>
    .ok (if prop == "length" then jsString (.num (Int.ofNat xs.length))
         else
           match toNatDigits (strL prop) with
           | some i =>
             if toString i == prop then
               match xs.get? i with
               | some v => jsString v
               | none => ""
             else ""
           | none => "")
  | _ => .error ()

/-- Per-element instantiation of an XML loop body (lines 66-87): first
every XML text tag, then every Handlebars variable, each resolved against
the element. -/
def instXmlItem (item : Value) (block : List Char) : Except Unit (List Char) :=
  match replScanE matchTextTagAt (itemPropRepl item) block with
  | .error e => .error e
  | .ok b1 => replScanE matchHbsVarAt (itemPropRepl item) b1

/-- Per-element instantiation of a Handlebars loop body (lines 103-108):
only Handlebars variables are resolved against the element. -/
def instHbsItem (item : Value) (block : List Char) : Except Unit (List Char) :=
  replScanE matchHbsVarAt (itemPropRepl item) block

/-- `items.map(cb)` over a throwing callback, evaluated left to right with
the first throw aborting (then joined by the caller). -/
def exceptMap (f : Value → Except Unit (List Char)) :
    List Value → Except Unit (List (List Char))
  | [] => .ok []
  | v :: vs =>
    match f v with
    | .error e => .error e
    | .ok b =>
      match exceptMap f vs with
      | .error e => .error e
      | .ok bs => .ok (b :: bs)

/-- The `console.warn` text emitted for an invalid loop source (lines 61
and 98). -/
def warnMsg (key : String) : String :=
  "\"" ++ key ++ "\" is not an array or is undefined."

/-- Driver for a loop pass: on a match, resolve the key; unless it is
bound to an array, warn and substitute empty content (lines 59-63,
96-100); otherwise emit each instantiated body copy in element order,
joined (lines 65-88, 102-109).  Returns the output together with the list
of warnings in emission order. -/
def loopScanF (m : List Char → Option (String × List Char × List Char))
    (inst : Value → List Char → Except Unit (List Char)) (ctx : Ctx) :
    Nat → List Char → Except Unit (List Char × List String)
  | _, [] => .ok ([], [])
  | 0, s => .ok (s, [])
  | fuel + 1, c :: cs =>
    match m (c :: cs) with
    | some (key, body, rest) =>
      match lookupCtx ctx key with
      | some (.arr items) =>
        match exceptMap (fun it => inst it body) items with
        | .error e => .error e
        | .ok blocks =>
          match loopScanF m inst ctx fuel rest with
          | .error e => .error e
          | .ok (out, ws) => .ok (blocks.flatten ++ out, ws)
      | _ =>
        match loopScanF m inst ctx fuel rest with
        | .error e => .error e
        | .ok (out, ws) => .ok (out, warnMsg key :: ws)
    | none =>
      match loopScanF m inst ctx fuel cs with
      | .error e => .error e
      | .ok (out, ws) => .ok (c :: out, ws)

/-- The XML loop pass (lines 56-90). -/
def expandLoopsXml (ctx : Ctx) (s : List Char) : Except Unit (List Char × List String) :=
  loopScanF matchEachXmlAt instXmlItem ctx s.length s

/-- The Handlebars loop pass (lines 92-111). -/
def expandLoopsHbs (ctx : Ctx) (s : List Char) : Except Unit (List Char × List String) :=
  loopScanF matchEachHbsAt instHbsItem ctx s.length s

/-! ## Conditional expansion (source lines 113-191) -/

/-- Branch evaluation shared by both conditional dialects (lines 142-151,
180-189): walk the branch list in textual order and return the content of
the first branch whose resolved condition is truthy, else the else
content. -/
def evalBranches (ctx : Ctx) : List (String × List Char) → List Char → List Char
  | [], elseBlock => elseBlock
  | (cond, content) :: rest, elseBlock =>
    if jsTruthy (getValueFromContext ctx cond) then content
    else evalBranches ctx rest elseBlock

/-- One step of the XML branch-collection loop (lines 128-140): an
else-if tag (whose path is re-extracted by `tag.match`) appends a branch;
an else tag overwrites the else content; a tag failing the re-extraction
is skipped. -/
def xmlBranchStep (acc : List (String × List Char) × List Char)
    (pair : String × List Char) : List (String × List Char) × List Char :=
  let (blocks, elseBlock) := acc
  let (tag, content) := pair
  if strStartsWith tag "elseif" then
    match searchElseifPath (strL tag) with
    | some p => (blocks ++ [(p, content)], elseBlock)
    | none => (blocks, elseBlock)
  else if strStartsWith tag "else" then (blocks, content)
  else (blocks, elseBlock)

/-- Branch collection for an XML conditional body (lines 117-140). -/
def buildXmlBranches (cond : String) (first : List Char)
    (pairs : List (String × List Char)) : List (String × List Char) × List Char :=
  pairs.foldl xmlBranchStep ([(cond, first)], [])

/-- One step of the Handlebars branch-collection loop (lines 168-178). -/
def hbsBranchStep (acc : List (String × List Char) × List Char)
    (pair : String × List Char) : List (String × List Char) × List Char :=
  let (blocks, elseBlock) := acc
  let (tag, content) := pair
  if strStartsWith tag "else if" then
    (blocks ++ [(jsTrim (tag.drop 8), content)], elseBlock)
  else if tag == "else" then (blocks, content)
  else (blocks, elseBlock)

/-- Branch collection for a Handlebars conditional body (lines 159-178). -/
def buildHbsBranches (cond : String) (first : List Char)
    (pairs : List (String × List Char)) : List (String × List Char) × List Char :=
  pairs.foldl hbsBranchStep ([(cond, first)], [])

/-- Replacement computed for one matched XML conditional (lines 114-153). -/
def condXmlStep (ctx : Ctx) (s : List Char) : Option (List Char × List Char) :=
  (matchIfXmlAt s).map (fun m =>
    let (first, pairs) := splitScan matchCondTagXmlAt m.2.1
    let (blocks, elseBlock) := buildXmlBranches m.1 first pairs
    (evalBranches ctx blocks elseBlock, m.2.2))

/-- The XML conditional pass (lines 113-153). -/
def expandCondXml (ctx : Ctx) (s : List Char) : List Char :=
  replaceScan (condXmlStep ctx) s

/-- Replacement computed for one matched Handlebars conditional
(lines 156-191). -/
def condHbsStep (ctx : Ctx) (s : List Char) : Option (List Char × List Char) :=
  (matchIfHbsAt s).map (fun m =>
    let (first, pairs) := splitScan matchCondTagHbsAt m.2.1
    let (blocks, elseBlock) := buildHbsBranches m.1 first pairs
    (evalBranches ctx blocks elseBlock, m.2.2))

/-- The Handlebars conditional pass (lines 155-191). -/
def expandCondHbs (ctx : Ctx) (s : List Char) : List Char :=
  replaceScan (condHbsStep ctx) s

/-! ## Variable substitution (source lines 193-201) -/

/-- Top-level variable replacement
`context[key] !== undefined ? String(context[key]) : ""`. -/
def topVarRepl (ctx : Ctx) (key : String) : String :=
  match lookupCtx ctx key with
  | some v => jsString v
  | none => ""

/-- Replacement step for one matched top-level XML text tag. -/
def textTagStep (ctx : Ctx) (s : List Char) : Option (List Char × List Char) :=
  (matchTextTagAt s).map (fun m => (strL (topVarRepl ctx m.1), m.2))

/-- The top-level XML text-tag pass (lines 193-196). -/
def substTextTags (ctx : Ctx) (s : List Char) : List Char :=
  replaceScan (textTagStep ctx) s

/-- Replacement step for one matched top-level Handlebars variable. -/
def hbsVarStep (ctx : Ctx) (s : List Char) : Option (List Char × List Char) :=
  (matchHbsVarAt s).map (fun m => (strL (topVarRepl ctx m.1), m.2))

/-- The top-level Handlebars variable pass (lines 198-201). -/
def substHbsVars (ctx : Ctx) (s : List Char) : List Char :=
  replaceScan (hbsVarStep ctx) s

/-! ## The render entry point (source lines 34-215) -/

/-- The six expansion passes, in source order, on the loaded template
text; the output string is paired with the warnings emitted by the two
loop passes in order.  An `error` is the TypeError thrown by a loop body
substitution on a primitive element. -/
def renderTemplate (ctx : Ctx) (raw : String) : Except Unit (String × List String) :=
  match expandLoopsXml ctx (strL raw) with
  | .error e => .error e
  | .ok (h1, w1) =>
    match expandLoopsHbs ctx h1 with
    | .error e => .error e
    | .ok (h2, w2) =>
      let h3 := expandCondXml ctx h2
      let h4 := expandCondHbs ctx h3
      let h5 := substTextTags ctx h4
      let h6 := substHbsVars ctx h5
      .ok (String.mk h6, w1 ++ w2)

/-- The failure modes of `View`: the explicit throw for an unknown
template path (line 49), the TypeError propagating out of a loop body
substitution, and the explicit throw when the trimmed markup has no
element root (line 208). -/
inductive ViewError where
  | templateNotFound (path : String)
  | typeError
  | noValidElement (path : String)
deriving DecidableEq

/-- The `View` entry point (lines 34-215).  The Vite template map is the
association list `templates` (path to raw text, mirroring
`import.meta.glob`); DOM materialization is abstracted by the predicate
`parseRoot`, true when `wrapper.firstElementChild` would be non-null for
the given trimmed markup.  On success the fully substituted trimmed
markup and the emitted warnings are returned (component expansion by the
registry is an external collaborator and out of scope). -/
def View (templates : List (String × String)) (parseRoot : String → Bool)
    (templatePath : String) (ctx : Ctx) : Except ViewError (String × List String) :=
  let fullPath := "/src/view/" ++ templatePath
  match (templates.find? (fun kv => kv.1 == fullPath)).map (fun kv => kv.2) with
  | none => .error (.templateNotFound templatePath)
  | some raw =>
    match renderTemplate ctx raw with
    | .error _ => .error .typeError
    | .ok (html, ws) =>
      let trimmed := jsTrim html
      if parseRoot trimmed then .ok (trimmed, ws)
      else .error (.noValidElement templatePath)

/-! ## Auxiliary specification-side definitions -/

/-- `matchFreeAll m s` states that `m` fails at every scan position of
`s` down to its end. -/
def matchFreeAll {α : Type} (m : List Char → Option α) : List Char → Bool
  | [] => true
  | c :: cs => (m (c :: cs)).isNone && matchFreeAll m cs

/-- `matchFreeConcat m p rest` states that `m` fails at every scan
position whose head lies inside `p`, while scanning `p ++ rest`. -/
def matchFreeConcat {α : Type} (m : List Char → Option α) :
    List Char → List Char → Bool
  | [], _ => true
  | c :: cs, rest => (m (c :: cs ++ rest)).isNone && matchFreeConcat m cs rest

/-- Resolver written from the claim's words: follow the segments along a
chain of mappings; any absent segment, or a traversed value that is not a
mapping, degrades to missing. -/
def specResolve : Option Value → List String → Option Value
  | v, [] => v
  | some (.obj fs), k :: ks => specResolve (fieldLookup fs k) ks
  | _, _ :: _ => none

/-- Resolver specification describing what the source actually does:
mappings resolve their fields, and sequences additionally expose their own
properties (length and canonical numeric indices) as segments; anything
else degrades to missing. -/
def specResolveSeq : Option Value → List String → Option Value
  | v, [] => v
  | some v, k :: ks =>
    if isObjectType v && objHasKey v k then specResolveSeq (objGetKey v k) ks
    else none
  | none, _ :: _ => none

/-! ## Generic facts about the drivers -/

theorem replaceScanF_nil (m : List Char → Option (List Char × List Char))
    (fuel : Nat) : replaceScanF m fuel [] = [] := by
  cases fuel <;> rfl

/-- A match whose remainder is empty is the final match of the scan. -/
theorem replaceScan_single {m : List Char → Option (List Char × List Char)}
    {s repl : List Char} (hs : s ≠ []) (h : m s = some (repl, [])) :
    replaceScan m s = repl := by
  cases s with
  | nil => exact absurd rfl hs
  | cons c cs => simp [replaceScan, replaceScanF, h, replaceScanF_nil]

theorem replaceScan_nomatch {m : List Char → Option (List Char × List Char)}
    {c : Char} {cs : List Char} (h : m (c :: cs) = none) :
    replaceScan m (c :: cs) = c :: replaceScan m cs := by
  simp [replaceScan, replaceScanF, h]

theorem matchFreeAll_congr {α β : Type} {m1 : List Char → Option α}
    {m2 : List Char → Option β}
    (h : ∀ t, (m1 t).isNone = (m2 t).isNone) :
    ∀ s, matchFreeAll m1 s = matchFreeAll m2 s := by
  intro s
  induction s with
  | nil => rfl
  | cons c cs ih => simp [matchFreeAll, h, ih]

/-- A scan over match-free text is the identity. -/
theorem replaceScanF_id {m : List Char → Option (List Char × List Char)}
    {s : List Char} (h : matchFreeAll m s = true) :
    ∀ fuel, replaceScanF m fuel s = s := by
  induction s with
  | nil => intro fuel; exact replaceScanF_nil m fuel
  | cons c cs ih =>
    intro fuel
    simp [matchFreeAll, Option.isNone_iff_eq_none] at h
    cases fuel with
    | zero => rfl
    | succ fuel => simp [replaceScanF, h.1, ih h.2]

theorem replaceScan_id {m : List Char → Option (List Char × List Char)}
    {s : List Char} (h : matchFreeAll m s = true) :
    replaceScan m s = s :=
  replaceScanF_id h _

/-- A scan passes unchanged over a match-free chunk and continues on the
remainder with the corresponding fuel. -/
theorem replaceScanF_concat {m : List Char → Option (List Char × List Char)}
    {p rest : List Char} (h : matchFreeConcat m p rest = true) :
    replaceScanF m (p ++ rest).length (p ++ rest) =
      p ++ replaceScanF m rest.length rest := by
  induction p with
  | nil => simp
  | cons c cs ih =>
    simp [matchFreeConcat, Option.isNone_iff_eq_none] at h
    simpa [replaceScanF, h.1] using ih h.2

/-- Fuel above the string length is irrelevant, provided the matcher
always consumes at least one character. -/
theorem replaceScanF_fuel {m : List Char → Option (List Char × List Char)}
    (hm : ∀ s repl rest, m s = some (repl, rest) → rest.length < s.length) :
    ∀ n s fuel, s.length ≤ n → s.length ≤ fuel →
      replaceScanF m fuel s = replaceScanF m s.length s := by
  intro n
  induction n with
  | zero =>
    intro s fuel hn _
    have : s = [] := List.eq_nil_of_length_eq_zero (Nat.le_zero.mp hn)
    subst this
    simp [replaceScanF_nil]
  | succ n ih =>
    intro s fuel hn hf
    cases s with
    | nil => simp [replaceScanF_nil]
    | cons c cs =>
      cases fuel with
      | zero => simp at hf
      | succ fuel =>
        cases hmatch : m (c :: cs) with
        | none =>
          have h1 : cs.length ≤ n := by
            simp at hn; omega
          have h2 : cs.length ≤ fuel := by
            simp at hf; omega
          simp only [List.length_cons, replaceScanF, hmatch]
          rw [ih cs fuel h1 h2, ih cs cs.length h1 (Nat.le_refl _)]
        | some pr =>
          obtain ⟨repl, rest⟩ := pr
          have hlt := hm _ _ _ hmatch
          have h1 : rest.length ≤ n := by
            simp at hlt hn ⊢; omega
          have h2 : rest.length ≤ fuel := by
            simp at hlt hf ⊢; omega
          have h3 : rest.length ≤ cs.length := by
            simp at hlt; omega
          simp only [List.length_cons, replaceScanF, hmatch]
          rw [ih rest fuel h1 h2, ih rest cs.length h1 h3]

/-- General single-step equation for a shrinking matcher. -/
theorem replaceScan_step {m : List Char → Option (List Char × List Char)}
    (hm : ∀ s repl rest, m s = some (repl, rest) → rest.length < s.length)
    {s repl rest : List Char} (h : m s = some (repl, rest)) :
    replaceScan m s = repl ++ replaceScan m rest := by
  have hlt := hm _ _ _ h
  cases s with
  | nil => simp at hlt
  | cons c cs =>
    simp only [replaceScan, List.length_cons, replaceScanF, h]
    congr 1
    exact replaceScanF_fuel hm cs.length rest cs.length
      (by simp at hlt; omega) (by simp at hlt; omega)

/-- A match-free chunk passes through a scan unchanged. -/
theorem replaceScan_concat {m : List Char → Option (List Char × List Char)}
    {p rest : List Char} (h : matchFreeConcat m p rest = true) :
    replaceScan m (p ++ rest) = p ++ replaceScan m rest := by
  simpa [replaceScan] using replaceScanF_concat h

/-! ## Length accounting for the matchers -/

theorem takeWhile_len_le (p : Char → Bool) (s : List Char) :
    (s.takeWhile p).length ≤ s.length := by
  induction s with
  | nil => simp
  | cons c cs ih =>
    simp only [List.takeWhile]
    by_cases hc : p c
    · simp [hc]; omega
    · simp [hc]

theorem stripLit_length {l : List Char} :
    ∀ {s r : List Char}, stripLit l s = some r → s.length = l.length + r.length := by
  induction l with
  | nil =>
    intro s r h
    simp [stripLit] at h
    simp [h]
  | cons a as ih =>
    intro s r h
    cases s with
    | nil => simp [stripLit] at h
    | cons c cs =>
      simp only [stripLit] at h
      by_cases hc : c == a
      · simp [hc] at h
        have := ih h
        simp [this]
        omega
      · simp [hc] at h

theorem takeClass1_length {p : Char → Bool} {s w r : List Char}
    (h : takeClass1 p s = some (w, r)) :
    s.length = w.length + r.length ∧ 0 < w.length := by
  simp only [takeClass1] at h
  by_cases he : (s.takeWhile p).isEmpty
  · simp [he] at h
  · simp [he] at h
    obtain ⟨hw, hr⟩ := h
    subst hw hr
    refine ⟨?_, ?_⟩
    · have hle : (s.takeWhile p).length ≤ s.length := takeWhile_len_le p s
      simp [List.length_drop]
      omega
    · cases hq : s.takeWhile p with
      | nil => simp [hq, List.isEmpty] at he
      | cons x xs => simp [hq]

theorem skipClass_length_le (p : Char → Bool) (s : List Char) :
    (skipClass p s).length ≤ s.length := by
  induction s with
  | nil => simp [skipClass]
  | cons c cs ih =>
    simp only [skipClass, List.dropWhile]
    by_cases hc : p c
    · simp only [hc]
      simp only [skipClass] at ih
      simp
      omega
    · simp [hc]

theorem matchHbsVarAt_shrink {s : List Char} {key : String} {rest : List Char}
    (h : matchHbsVarAt s = some (key, rest)) : rest.length < s.length := by
  simp only [matchHbsVarAt, bind, Option.bind_eq_some, Option.pure_def,
    Option.some_inj, Prod.mk.injEq, Prod.exists] at h
  obtain ⟨s1, h1, w, s3, h3, s5, h5, hkey, hrest⟩ := h
  have l1 := stripLit_length h1
  have l3 := takeClass1_length h3
  have l4 := skipClass_length_le isSpaceChar s3
  have l5 := stripLit_length h5
  have l2 := skipClass_length_le isSpaceChar s1
  subst hrest
  simp [strL] at l1 l5
  omega

theorem matchTextTagAt_shrink {s : List Char} {key : String} {rest : List Char}
    (h : matchTextTagAt s = some (key, rest)) : rest.length < s.length := by
  simp only [matchTextTagAt, bind, Option.bind_eq_some, Option.pure_def,
    Option.some_inj, Prod.mk.injEq, Prod.exists] at h
  obtain ⟨s1, h1, sp, s2, h2, s3, h3, w, s4, h4, s5, h5, s7, h7, hkey, hrest⟩ := h
  have l1 := stripLit_length h1
  have l2 := takeClass1_length h2
  have l3 := stripLit_length h3
  have l4 := takeClass1_length h4
  have l5 := stripLit_length h5
  have l6 := skipClass_length_le isSpaceChar s5
  have l7 := stripLit_length h7
  subst hrest
  simp [strL] at l1 l3 l5 l7
  omega

theorem hbsVarStep_shrink (ctx : Ctx) :
    ∀ s repl rest, hbsVarStep ctx s = some (repl, rest) → rest.length < s.length := by
  intro s repl rest h
  simp only [hbsVarStep, Option.map_eq_some'] at h
  obtain ⟨⟨key, r⟩, hm, heq⟩ := h
  rw [Prod.mk.injEq] at heq
  obtain ⟨-, hr⟩ := heq
  subst hr
  exact matchHbsVarAt_shrink hm

theorem textTagStep_shrink (ctx : Ctx) :
    ∀ s repl rest, textTagStep ctx s = some (repl, rest) → rest.length < s.length := by
  intro s repl rest h
  simp only [textTagStep, Option.map_eq_some'] at h
  obtain ⟨⟨key, r⟩, hm, heq⟩ := h
  rw [Prod.mk.injEq] at heq
  obtain ⟨-, hr⟩ := heq
  subst hr
  exact matchTextTagAt_shrink hm

theorem hbsVarStep_isNone (ctx : Ctx) (t : List Char) :
    (hbsVarStep ctx t).isNone = (matchHbsVarAt t).isNone := by
  simp [hbsVarStep]

theorem textTagStep_isNone (ctx : Ctx) (t : List Char) :
    (textTagStep ctx t).isNone = (matchTextTagAt t).isNone := by
  simp [textTagStep]

/-! ## Facts about the loop driver and branch machinery -/

theorem loopScanF_nil (m : List Char → Option (String × List Char × List Char))
    (inst : Value → List Char → Except Unit (List Char)) (ctx : Ctx) (fuel : Nat) :
    loopScanF m inst ctx fuel [] = .ok ([], []) := by
  cases fuel <;> rfl

theorem replScanEF_nil (m : List Char → Option (String × List Char))
    (f : String → Except Unit String) (fuel : Nat) :
    replScanEF m f fuel [] = .ok [] := by
  cases fuel <;> rfl

/-- A throwing scan over match-free text is the identity. -/
theorem replScanEF_id {m : List Char → Option (String × List Char)}
    {f : String → Except Unit String} {s : List Char}
    (h : matchFreeAll m s = true) : ∀ fuel, replScanEF m f fuel s = .ok s := by
  induction s with
  | nil => intro fuel; exact replScanEF_nil m f fuel
  | cons c cs ih =>
    intro fuel
    simp [matchFreeAll, Option.isNone_iff_eq_none] at h
    cases fuel with
    | zero => rfl
    | succ fuel => simp [replScanEF, h.1, ih h.2]

theorem replScanE_id {m : List Char → Option (String × List Char)}
    {f : String → Except Unit String} {s : List Char}
    (h : matchFreeAll m s = true) : replScanE m f s = .ok s :=
  replScanEF_id h _

/-- A throwing scan whose single match ends the input. -/
theorem replScanE_single {m : List Char → Option (String × List Char)}
    {f : String → Except Unit String} {s : List Char} {key : String}
    (hs : s ≠ []) (hm : m s = some (key, [])) :
    replScanE m f s =
      (match f key with
       | .error e => .error e
       | .ok repl => .ok (strL repl)) := by
  cases s with
  | nil => exact absurd rfl hs
  | cons c cs =>
    cases hf : f key with
    | error e => simp [replScanE, replScanEF, hm, hf]
    | ok repl => simp [replScanE, replScanEF, hm, hf, replScanEF_nil]

theorem exceptMap_length {f : Value → Except Unit (List Char)} :
    ∀ {items : List Value} {blocks : List (List Char)},
      exceptMap f items = .ok blocks → blocks.length = items.length := by
  intro items
  induction items with
  | nil =>
    intro blocks h
    simp only [exceptMap] at h
    cases h
    rfl
  | cons v vs ih =>
    intro blocks h
    simp only [exceptMap] at h
    cases hf : f v with
    | error e => simp [hf] at h
    | ok b =>
      simp only [hf] at h
      cases hrec : exceptMap f vs with
      | error e => simp [hrec] at h
      | ok bs =>
        simp only [hrec] at h
        cases h
        simp [ih hrec]

/-- A loop pass whose single directive spans the whole input, bound to an
array: the output is the joined instantiated copies. -/
theorem loopScan_single_arr
    {m : List Char → Option (String × List Char × List Char)}
    {inst : Value → List Char → Except Unit (List Char)} {ctx : Ctx}
    {s body : List Char} {key : String} {items : List Value}
    {blocks : List (List Char)} (hs : s ≠ [])
    (hm : m s = some (key, body, []))
    (hl : lookupCtx ctx key = some (.arr items))
    (hmap : exceptMap (fun it => inst it body) items = .ok blocks) :
    loopScanF m inst ctx s.length s = .ok (blocks.flatten, []) := by
  cases s with
  | nil => exact absurd rfl hs
  | cons c cs => simp [loopScanF, hm, hl, hmap, loopScanF_nil]

/-- A loop pass whose single directive spans the whole input, with a key
not bound to an array: empty output plus the warning. -/
theorem loopScan_single_bad
    {m : List Char → Option (String × List Char × List Char)}
    {inst : Value → List Char → Except Unit (List Char)} {ctx : Ctx}
    {s body : List Char} {key : String} (hs : s ≠ [])
    (hm : m s = some (key, body, []))
    (hl : ∀ items, lookupCtx ctx key ≠ some (.arr items)) :
    loopScanF m inst ctx s.length s = .ok ([], [warnMsg key]) := by
  cases s with
  | nil => exact absurd rfl hs
  | cons c cs => ?_
  cases hc : lookupCtx ctx key with
  | none => simp [loopScanF, hm, hc, loopScanF_nil]
  | some v =>
    cases v with
    | arr xs => exact absurd hc (hl xs)
    | str s => simp [loopScanF, hm, hc, loopScanF_nil]
    | num n => simp [loopScanF, hm, hc, loopScanF_nil]
    | bool b => simp [loopScanF, hm, hc, loopScanF_nil]
    | obj fs => simp [loopScanF, hm, hc, loopScanF_nil]

/-- Branch evaluation picks the content of the first branch whose
resolved condition is truthy, else the else content. -/
theorem evalBranches_first_truthy (ctx : Ctx) :
    ∀ (blocks : List (String × List Char)) (els : List Char),
      evalBranches ctx blocks els =
        (match blocks.find? (fun bc => jsTruthy (getValueFromContext ctx bc.1)) with
         | some bc => bc.2
         | none => els) := by
  intro blocks
  induction blocks with
  | nil => intro els; simp [evalBranches]
  | cons b rest ih =>
    intro els
    obtain ⟨cond, content⟩ := b
    by_cases ht : jsTruthy (getValueFromContext ctx cond)
    · simp [evalBranches, ht, List.find?_cons_of_pos]
    · simp [evalBranches, ht, List.find?_cons_of_neg, ih]

/-- Both branch-collection folds only ever append to the branch list, so
the primary branch stays in front. -/
theorem branchFold_extends
    (step : List (String × List Char) × List Char → String × List Char →
      List (String × List Char) × List Char)
    (hstep : ∀ acc pair, ∃ ext, (step acc pair).1 = acc.1 ++ ext) :
    ∀ (pairs : List (String × List Char)) (init : List (String × List Char) × List Char),
      ∃ ext, (pairs.foldl step init).1 = init.1 ++ ext := by
  intro pairs
  induction pairs with
  | nil => intro init; exact ⟨[], by simp⟩
  | cons p ps ih =>
    intro init
    obtain ⟨e1, he1⟩ := hstep init p
    obtain ⟨e2, he2⟩ := ih (step init p)
    exact ⟨e1 ++ e2, by simp [he2, he1]⟩

theorem xmlBranchStep_extends (acc : List (String × List Char) × List Char)
    (pair : String × List Char) : ∃ ext, (xmlBranchStep acc pair).1 = acc.1 ++ ext := by
  obtain ⟨blocks, els⟩ := acc
  obtain ⟨tag, content⟩ := pair
  simp only [xmlBranchStep]
  by_cases h1 : strStartsWith tag "elseif"
  · cases hs : searchElseifPath (strL tag) with
    | none => exact ⟨[], by simp [h1, hs]⟩
    | some p => exact ⟨[(p, content)], by simp [h1, hs]⟩
  · by_cases h2 : strStartsWith tag "else"
    · exact ⟨[], by simp [h1, h2]⟩
    · exact ⟨[], by simp [h1, h2]⟩

theorem hbsBranchStep_extends (acc : List (String × List Char) × List Char)
    (pair : String × List Char) : ∃ ext, (hbsBranchStep acc pair).1 = acc.1 ++ ext := by
  obtain ⟨blocks, els⟩ := acc
  obtain ⟨tag, content⟩ := pair
  simp only [hbsBranchStep]
  by_cases h1 : strStartsWith tag "else if"
  · exact ⟨[(jsTrim (tag.drop 8), content)], by simp [h1]⟩
  · by_cases h2 : tag == "else"
    · exact ⟨[], by simp [h1, h2]⟩
    · exact ⟨[], by simp [h1, h2]⟩

/-! ## Resolver specifications -/

theorem ctxStep_none (k : String) : ctxStep none k = none := rfl

theorem foldl_ctxStep_none : ∀ ks : List String, List.foldl ctxStep none ks = none := by
  intro ks
  induction ks with
  | nil => rfl
  | cons k ks ih => simpa [List.foldl, ctxStep_none] using ih

/-- The source's `reduce` computes exactly the sequence-aware
specification resolver. -/
theorem foldl_ctxStep_eq_spec :
    ∀ (ks : List String) (acc : Option Value),
      List.foldl ctxStep acc ks = specResolveSeq acc ks := by
  intro ks
  induction ks with
  | nil => intro acc; cases acc <;> rfl
  | cons k ks ih =>
    intro acc
    cases acc with
    | none => simp [List.foldl, ctxStep_none, foldl_ctxStep_none, specResolveSeq]
    | some v =>
      by_cases hc : isObjectType v && objHasKey v k
      · simp [List.foldl, ctxStep, hc, specResolveSeq, ih]
      · simp [List.foldl, ctxStep, hc, specResolveSeq, foldl_ctxStep_none]

theorem specResolve_none : ∀ ks : List String, specResolve none ks = none := by
  intro ks
  cases ks <;> rfl

theorem fieldLookup_some_hasKey {fs : List (String × Value)} {k : String} {w : Value}
    (h : fieldLookup fs k = some w) : objHasKey (.obj fs) k = true := by
  simp only [fieldLookup, Option.map_eq_some'] at h
  obtain ⟨kv, hkv, -⟩ := h
  have hmem := List.mem_of_find?_eq_some hkv
  have hp := List.find?_some hkv
  simp only [objHasKey, List.any_eq_true]
  exact ⟨kv, hmem, hp⟩

/-- Wherever the mapping-only resolver succeeds, the sequence-aware one
agrees. -/
theorem specResolve_sub :
    ∀ (ks : List String) (acc : Option Value) (v : Value),
      specResolve acc ks = some v → specResolveSeq acc ks = some v := by
  intro ks
  induction ks with
  | nil => intro acc v h; simpa [specResolve, specResolveSeq] using h
  | cons k ks ih =>
    intro acc v h
    match acc with
    | none => simp [specResolve] at h
    | some (.str s) => simp [specResolve] at h
    | some (.num n) => simp [specResolve] at h
    | some (.bool b) => simp [specResolve] at h
    | some (.arr xs) => simp [specResolve] at h
    | some (.obj fs) =>
      simp only [specResolve] at h
      cases hf : fieldLookup fs k with
      | none => rw [hf, specResolve_none] at h; cases h
      | some w =>
        rw [hf] at h
        have hk := fieldLookup_some_hasKey hf
        have : objGetKey (.obj fs) k = some w := by simpa [objGetKey] using hf
        simp [specResolveSeq, isObjectType, hk, this, ih _ _ h, hf, objGetKey]

/-! ## Claim C6 -/

/-- C6 counterexample: the claim says the resolver returns missing
whenever a traversed value is not a mapping, but for the context binding
`users` to an empty sequence, the path `users.length` traverses the
sequence (not a mapping) and the source resolver returns the number 0,
where the resolver written from the claim's words returns missing. -/
theorem c6_path_resolver_counterexample :
    getValueFromContext [("users", Value.arr [])] "users.length" = some (Value.num 0) ∧
    specResolve (some (Value.obj [("users", Value.arr [])]))
      ((splitPath (strL "users.length")).map String.mk) = none :=
  ⟨rfl, rfl⟩

/-- C6 (amended): the path resolver is total and never errors; it
computes exactly the sequence-aware specification resolver (mappings
resolve their fields, sequences additionally expose their own `length`
and canonical numeric index properties as segments, everything else
degrades to missing); in particular, whenever every segment exists along
a chain of mappings, it returns that resolved value. -/
theorem c6_path_resolver_amended (ctx : Ctx) (path : String) :
    getValueFromContext ctx path =
      specResolveSeq (some (.obj ctx)) ((splitPath (strL path)).map String.mk) ∧
    (∀ v, specResolve (some (.obj ctx)) ((splitPath (strL path)).map String.mk) = some v →
      getValueFromContext ctx path = some v) := by
  have h1 : getValueFromContext ctx path =
      specResolveSeq (some (.obj ctx)) ((splitPath (strL path)).map String.mk) :=
    foldl_ctxStep_eq_spec _ _
  refine ⟨h1, fun v hv => ?_⟩
  rw [h1]
  exact specResolve_sub _ _ _ hv

/-- C6 witness: a two-segment chain of mappings resolved by both the
specification resolver and the source resolver. -/
theorem c6_path_resolver_amended_witness :
    specResolve (some (Value.obj [("a", Value.obj [("b", Value.str "x")])]))
      ((splitPath (strL "a.b")).map String.mk) = some (Value.str "x") ∧
    getValueFromContext [("a", Value.obj [("b", Value.str "x")])] "a.b" =
      some (Value.str "x") :=
  ⟨rfl, (c6_path_resolver_amended [("a", Value.obj [("b", Value.str "x")])] "a.b").2
    (Value.str "x") rfl⟩

/-! ## Claim C3 -/

/-- C3: condition truthiness — a resolved condition value is falsy
exactly when it is missing, the empty string, numeric zero, or boolean
false; any other resolved value is truthy; and, in particular, a
conditional whose condition path resolves to an empty sequence renders
its primary branch content, not the else content. -/
theorem c3_condition_truthiness :
    (∀ v : Option Value, jsTruthy v = false ↔
      v = none ∨ v = some (.str "") ∨ v = some (.num 0) ∨ v = some (.bool false)) ∧
    (∀ (ctx : Ctx) (cond : String) (s body first : List Char)
        (pairs : List (String × List Char)),
      matchIfHbsAt s = some (cond, body, []) →
      splitScan matchCondTagHbsAt body = (first, pairs) →
      getValueFromContext ctx cond = some (.arr []) →
      expandCondHbs ctx s = first) := by
  constructor
  · intro v
    match v with
    | none => simp [jsTruthy]
    | some (.str s) => simp [jsTruthy]
    | some (.num n) => simp [jsTruthy]
    | some (.bool b) => simp [jsTruthy]
    | some (.arr xs) => simp [jsTruthy]
    | some (.obj fs) => simp [jsTruthy]
  · intro ctx cond s body first pairs hm hsplit hres
    have hs : s ≠ [] := by
      intro h
      rw [h, show matchIfHbsAt [] = none from rfl] at hm
      exact Option.noConfusion hm
    obtain ⟨ext, hext⟩ :=
      branchFold_extends hbsBranchStep hbsBranchStep_extends pairs ([(cond, first)], [])
    have hstep : condHbsStep ctx s =
        some (evalBranches ctx (buildHbsBranches cond first pairs).1
          (buildHbsBranches cond first pairs).2, []) := by
      simp [condHbsStep, hm, hsplit]
    have hout : expandCondHbs ctx s =
        evalBranches ctx (buildHbsBranches cond first pairs).1
          (buildHbsBranches cond first pairs).2 :=
      replaceScan_single hs hstep
    rw [hout]
    have hblocks : (buildHbsBranches cond first pairs).1 = (cond, first) :: ext := by
      simpa [buildHbsBranches] using hext
    rw [hblocks]
    simp [evalBranches, hres, jsTruthy]

/-- C3 witness: with an empty sequence bound to the condition key, the
Handlebars conditional renders the primary branch. -/
theorem c3_condition_truthiness_witness :
    matchIfHbsAt (strL "\x7b\x7b#if xs\x7d\x7dYES\x7b\x7belse\x7d\x7dNO\x7b\x7b/if\x7d\x7d") =
      some ("xs", strL "YES\x7b\x7belse\x7d\x7dNO", []) ∧
    splitScan matchCondTagHbsAt (strL "YES\x7b\x7belse\x7d\x7dNO") =
      (strL "YES", [("else", strL "NO")]) ∧
    getValueFromContext [("xs", Value.arr [])] "xs" = some (Value.arr []) ∧
    expandCondHbs [("xs", Value.arr [])]
      (strL "\x7b\x7b#if xs\x7d\x7dYES\x7b\x7belse\x7d\x7dNO\x7b\x7b/if\x7d\x7d") = strL "YES" :=
  ⟨rfl, rfl, rfl,
    c3_condition_truthiness.2 [("xs", Value.arr [])] "xs" _ _ _ _ rfl rfl rfl⟩

/-! ## Claim C2 -/

/-- C2: conditional expansion returns the content of the first branch
(in textual order) whose resolved condition is truthy, else the else
content, else the empty string — stated generally for the shared branch
evaluator, and instantiated for a two-branch conditional with else in
each dialect: when the first condition resolves falsy and the second
truthy, the output is exactly the second branch content. -/
theorem c2_conditional_first_truthy :
    (∀ (ctx : Ctx) (blocks : List (String × List Char)) (els : List Char),
      evalBranches ctx blocks els =
        (match blocks.find? (fun bc => jsTruthy (getValueFromContext ctx bc.1)) with
         | some bc => bc.2
         | none => els)) ∧
    (∀ (ctx : Ctx) (c1 c2 t1 : String) (s body b1 b2 be : List Char),
      matchIfHbsAt s = some (c1, body, []) →
      splitScan matchCondTagHbsAt body = (b1, [(t1, b2), ("else", be)]) →
      strStartsWith t1 "else if" = true →
      jsTrim (t1.drop 8) = c2 →
      jsTruthy (getValueFromContext ctx c1) = false →
      jsTruthy (getValueFromContext ctx c2) = true →
      expandCondHbs ctx s = b2) ∧
    (∀ (ctx : Ctx) (c1 c2 t1 : String) (s body b1 b2 be : List Char),
      matchIfXmlAt s = some (c1, body, []) →
      splitScan matchCondTagXmlAt body = (b1, [(t1, b2), ("else/", be)]) →
      strStartsWith t1 "elseif" = true →
      searchElseifPath (strL t1) = some c2 →
      jsTruthy (getValueFromContext ctx c1) = false →
      jsTruthy (getValueFromContext ctx c2) = true →
      expandCondXml ctx s = b2) := by
  refine ⟨evalBranches_first_truthy, ?_, ?_⟩
  · intro ctx c1 c2 t1 s body b1 b2 be hm hsplit ht1 hpath hf ht
    have hs : s ≠ [] := by
      intro h
      rw [h, show matchIfHbsAt [] = none from rfl] at hm
      exact Option.noConfusion hm
    have hstep : condHbsStep ctx s =
        some (evalBranches ctx
          (buildHbsBranches c1 b1 [(t1, b2), ("else", be)]).1
          (buildHbsBranches c1 b1 [(t1, b2), ("else", be)]).2, []) := by
      simp [condHbsStep, hm, hsplit]
    have hbuild : buildHbsBranches c1 b1 [(t1, b2), ("else", be)] =
        ([(c1, b1), (c2, b2)], be) := by
      simp [buildHbsBranches, List.foldl, hbsBranchStep, ht1, hpath,
        show strStartsWith "else" "else if" = false from rfl]
    have hout : expandCondHbs ctx s =
        evalBranches ctx (buildHbsBranches c1 b1 [(t1, b2), ("else", be)]).1
          (buildHbsBranches c1 b1 [(t1, b2), ("else", be)]).2 :=
      replaceScan_single hs hstep
    rw [hout, hbuild]
    simp [evalBranches, hf, ht]
  · intro ctx c1 c2 t1 s body b1 b2 be hm hsplit ht1 hpath hf ht
    have hs : s ≠ [] := by
      intro h
      rw [h, show matchIfXmlAt [] = none from rfl] at hm
      exact Option.noConfusion hm
    have hstep : condXmlStep ctx s =
        some (evalBranches ctx
          (buildXmlBranches c1 b1 [(t1, b2), ("else/", be)]).1
          (buildXmlBranches c1 b1 [(t1, b2), ("else/", be)]).2, []) := by
      simp [condXmlStep, hm, hsplit]
    have hbuild : buildXmlBranches c1 b1 [(t1, b2), ("else/", be)] =
        ([(c1, b1), (c2, b2)], be) := by
      simp [buildXmlBranches, List.foldl, xmlBranchStep, ht1, hpath,
        show strStartsWith "else/" "elseif" = false from rfl,
        show strStartsWith "else/" "else" = true from rfl]
    have hout : expandCondXml ctx s =
        evalBranches ctx (buildXmlBranches c1 b1 [(t1, b2), ("else/", be)]).1
          (buildXmlBranches c1 b1 [(t1, b2), ("else/", be)]).2 :=
      replaceScan_single hs hstep
    rw [hout, hbuild]
    simp [evalBranches, hf, ht]

/-- C2 witness: a two-branch conditional with else, first condition
falsy, second truthy, in each dialect. -/
theorem c2_conditional_first_truthy_witness :
    expandCondHbs [("ok", Value.bool false), ("n", Value.num 2)]
      (strL "\x7b\x7b#if ok\x7d\x7dA\x7b\x7belse if n\x7d\x7dB\x7b\x7belse\x7d\x7dC\x7b\x7b/if\x7d\x7d") =
      strL "B" ∧
    expandCondXml [("ok", Value.bool false), ("n", Value.num 2)]
      (strL "<if data=\"ok\">A<elseif data=\"n\" />B<else/>C</if>") = strL "B" :=
  ⟨c2_conditional_first_truthy.2.1 [("ok", Value.bool false), ("n", Value.num 2)]
      "ok" "n" "else if n" _ _ _ _ _ rfl rfl rfl rfl rfl rfl,
    c2_conditional_first_truthy.2.2 [("ok", Value.bool false), ("n", Value.num 2)]
      "ok" "n" "elseif data=\"n\" /" _ _ _ _ _ rfl rfl rfl rfl rfl rfl⟩

/-! ## Claim C4 -/

/-- C4: for a sequence bound to the loop key, a loop directive (either
dialect) expands to the concatenation of the body instantiated against
each element, in element order, and the number of body copies equals the
length of the sequence. -/
theorem c4_loop_concatenation :
    (∀ (ctx : Ctx) (key : String) (s body : List Char) (items : List Value)
        (blocks : List (List Char)),
      matchEachXmlAt s = some (key, body, []) →
      lookupCtx ctx key = some (.arr items) →
      exceptMap (fun it => instXmlItem it body) items = .ok blocks →
      expandLoopsXml ctx s = .ok (blocks.flatten, []) ∧
        blocks.length = items.length) ∧
    (∀ (ctx : Ctx) (key : String) (s body : List Char) (items : List Value)
        (blocks : List (List Char)),
      matchEachHbsAt s = some (key, body, []) →
      lookupCtx ctx key = some (.arr items) →
      exceptMap (fun it => instHbsItem it body) items = .ok blocks →
      expandLoopsHbs ctx s = .ok (blocks.flatten, []) ∧
        blocks.length = items.length) := by
  constructor
  · intro ctx key s body items blocks hm hl hmap
    have hs : s ≠ [] := by
      intro h
      rw [h, show matchEachXmlAt [] = none from rfl] at hm
      exact Option.noConfusion hm
    exact ⟨loopScan_single_arr hs hm hl hmap, exceptMap_length hmap⟩
  · intro ctx key s body items blocks hm hl hmap
    have hs : s ≠ [] := by
      intro h
      rw [h, show matchEachHbsAt [] = none from rfl] at hm
      exact Option.noConfusion hm
    exact ⟨loopScan_single_arr hs hm hl hmap, exceptMap_length hmap⟩

/-- C4 witness: a two-element sequence of mappings expanded by each
dialect, with the copy count equal to the sequence length. -/
theorem c4_loop_concatenation_witness :
    expandLoopsXml [("items", Value.arr [Value.obj [("t", Value.str "x")], Value.obj [("t", Value.str "y")]])]
      (strL "<each data=\"items\"><i><text data=\"t\" />-\x7b\x7b t \x7d\x7d</i></each>") =
      .ok (strL "<i>x-x</i><i>y-y</i>", []) ∧
    expandLoopsHbs [("items", Value.arr [Value.obj [("t", Value.str "x")], Value.obj [("t", Value.str "y")]])]
      (strL "\x7b\x7b#each items\x7d\x7d<i>\x7b\x7b t \x7d\x7d</i>\x7b\x7b/each\x7d\x7d") =
      .ok (strL "<i>x</i><i>y</i>", []) ∧
    ([strL "<i>x-x</i>", strL "<i>y-y</i>"].length =
      [Value.obj [("t", Value.str "x")], Value.obj [("t", Value.str "y")]].length) :=
  ⟨(c4_loop_concatenation.1
      [("items", Value.arr [Value.obj [("t", Value.str "x")], Value.obj [("t", Value.str "y")]])]
      "items" (strL "<each data=\"items\"><i><text data=\"t\" />-\x7b\x7b t \x7d\x7d</i></each>")
      (strL "<i><text data=\"t\" />-\x7b\x7b t \x7d\x7d</i>")
      [Value.obj [("t", Value.str "x")], Value.obj [("t", Value.str "y")]]
      [strL "<i>x-x</i>", strL "<i>y-y</i>"] rfl rfl rfl).1,
    (c4_loop_concatenation.2
      [("items", Value.arr [Value.obj [("t", Value.str "x")], Value.obj [("t", Value.str "y")]])]
      "items" (strL "\x7b\x7b#each items\x7d\x7d<i>\x7b\x7b t \x7d\x7d</i>\x7b\x7b/each\x7d\x7d")
      (strL "<i>\x7b\x7b t \x7d\x7d</i>")
      [Value.obj [("t", Value.str "x")], Value.obj [("t", Value.str "y")]]
      [strL "<i>x</i>", strL "<i>y</i>"] rfl rfl rfl).1,
    (c4_loop_concatenation.1
      [("items", Value.arr [Value.obj [("t", Value.str "x")], Value.obj [("t", Value.str "y")]])]
      "items" (strL "<each data=\"items\"><i><text data=\"t\" />-\x7b\x7b t \x7d\x7d</i></each>")
      (strL "<i><text data=\"t\" />-\x7b\x7b t \x7d\x7d</i>")
      [Value.obj [("t", Value.str "x")], Value.obj [("t", Value.str "y")]]
      [strL "<i>x-x</i>", strL "<i>y-y</i>"] rfl rfl rfl).2⟩

/-! ## Claim C5 -/

/-- C5: a loop directive (either dialect) whose key is absent from the
context or not bound to a sequence makes the pass emit the non-fatal
warning and substitute empty content, and the pass still completes
normally (no error for that directive). -/
theorem c5_invalid_loop_source :
    (∀ (ctx : Ctx) (key : String) (s body : List Char),
      matchEachXmlAt s = some (key, body, []) →
      (∀ items, lookupCtx ctx key ≠ some (.arr items)) →
      expandLoopsXml ctx s = .ok ([], [warnMsg key])) ∧
    (∀ (ctx : Ctx) (key : String) (s body : List Char),
      matchEachHbsAt s = some (key, body, []) →
      (∀ items, lookupCtx ctx key ≠ some (.arr items)) →
      expandLoopsHbs ctx s = .ok ([], [warnMsg key])) := by
  constructor
  · intro ctx key s body hm hl
    have hs : s ≠ [] := by
      intro h
      rw [h, show matchEachXmlAt [] = none from rfl] at hm
      exact Option.noConfusion hm
    exact loopScan_single_bad hs hm hl
  · intro ctx key s body hm hl
    have hs : s ≠ [] := by
      intro h
      rw [h, show matchEachHbsAt [] = none from rfl] at hm
      exact Option.noConfusion hm
    exact loopScan_single_bad hs hm hl

/-- C5 witness: an absent key (XML dialect) and a key bound to a string
(Handlebars dialect) both warn, substitute empty content, and complete. -/
theorem c5_invalid_loop_source_witness :
    expandLoopsXml [] (strL "<each data=\"nope\">Q</each>") =
      .ok ([], [warnMsg "nope"]) ∧
    expandLoopsHbs [("xs", Value.str "no")]
      (strL "\x7b\x7b#each xs\x7d\x7dQ\x7b\x7b/each\x7d\x7d") =
      .ok ([], [warnMsg "xs"]) :=
  ⟨c5_invalid_loop_source.1 [] "nope" _ _ rfl
      (fun items h => Option.noConfusion h),
    c5_invalid_loop_source.2 [("xs", Value.str "no")] "xs" _ _ rfl
      (fun items h => by cases h)⟩

/-! ## Claim C7 -/

/-- C7: the top-level variable passes replace every remaining
bare-variable directive of either dialect with the string representation
of its resolved context value — and with the empty string, not the
literal placeholder, when the key is missing: scanning past any
match-free chunk, a matched directive is replaced by the resolution of
its key and the scan continues over the remaining text. -/
theorem c7_variable_substitution :
    (∀ (ctx : Ctx) (p d rest : List Char) (key : String),
      matchTextTagAt (d ++ rest) = some (key, rest) →
      matchFreeConcat (textTagStep ctx) p (d ++ rest) = true →
      substTextTags ctx (p ++ (d ++ rest)) =
        p ++ (match lookupCtx ctx key with
              | some v => strL (jsString v)
              | none => []) ++ substTextTags ctx rest) ∧
    (∀ (ctx : Ctx) (p d rest : List Char) (key : String),
      matchHbsVarAt (d ++ rest) = some (key, rest) →
      matchFreeConcat (hbsVarStep ctx) p (d ++ rest) = true →
      substHbsVars ctx (p ++ (d ++ rest)) =
        p ++ (match lookupCtx ctx key with
              | some v => strL (jsString v)
              | none => []) ++ substHbsVars ctx rest) := by
  constructor
  · intro ctx p d rest key hm hfree
    have hstep : textTagStep ctx (d ++ rest) = some (strL (topVarRepl ctx key), rest) := by
      simp [textTagStep, hm]
    have h1 : substTextTags ctx (p ++ (d ++ rest)) =
        p ++ replaceScan (textTagStep ctx) (d ++ rest) :=
      replaceScan_concat hfree
    have h2 : replaceScan (textTagStep ctx) (d ++ rest) =
        strL (topVarRepl ctx key) ++ replaceScan (textTagStep ctx) rest :=
      replaceScan_step (textTagStep_shrink ctx) hstep
    rw [h1, h2]
    cases hv : lookupCtx ctx key <;> simp [topVarRepl, hv, substTextTags, strL]
  · intro ctx p d rest key hm hfree
    have hstep : hbsVarStep ctx (d ++ rest) = some (strL (topVarRepl ctx key), rest) := by
      simp [hbsVarStep, hm]
    have h1 : substHbsVars ctx (p ++ (d ++ rest)) =
        p ++ replaceScan (hbsVarStep ctx) (d ++ rest) :=
      replaceScan_concat hfree
    have h2 : replaceScan (hbsVarStep ctx) (d ++ rest) =
        strL (topVarRepl ctx key) ++ replaceScan (hbsVarStep ctx) rest :=
      replaceScan_step (hbsVarStep_shrink ctx) hstep
    rw [h1, h2]
    cases hv : lookupCtx ctx key <;> simp [topVarRepl, hv, substHbsVars, strL]

/-- C7 witness: a bound text tag resolves to its stringified value, and a
missing Handlebars key resolves to the empty string rather than the
placeholder text. -/
theorem c7_variable_substitution_witness :
    substTextTags [("name", Value.str "Ada")]
      (strL "a <text data=\"name\" /> b") = strL "a Ada b" ∧
    substHbsVars [("n", Value.num 3)]
      (strL "x \x7b\x7b nope \x7d\x7d y \x7b\x7b n \x7d\x7d") = strL "x  y 3" :=
  ⟨c7_variable_substitution.1 [("name", Value.str "Ada")]
      (strL "a ") (strL "<text data=\"name\" />") (strL " b") "name" rfl (by decide),
    c7_variable_substitution.2 [("n", Value.num 3)]
      (strL "x ") (strL "\x7b\x7b nope \x7d\x7d") (strL " y \x7b\x7b n \x7d\x7d") "nope"
      rfl (by decide)⟩

/-! ## Claim C10 -/

/-- C10: a bare-variable directive whose key contains a dot is matched by
neither dialect's variable pattern and is left verbatim — for every
context, including ones where the dotted path would resolve — while a
dotted path in a conditional condition position is resolved through the
dot-path resolver. -/
theorem c10_dotted_keys_verbatim :
    (∀ ctx : Ctx, substHbsVars ctx (strL "\x7b\x7b user.name \x7d\x7d") =
      strL "\x7b\x7b user.name \x7d\x7d") ∧
    (∀ ctx : Ctx, substTextTags ctx (strL "<text data=\"user.name\" />") =
      strL "<text data=\"user.name\" />") ∧
    (∀ ctx : Ctx, jsTruthy (getValueFromContext ctx "user.name") = true →
      expandCondHbs ctx (strL "\x7b\x7b#if user.name\x7d\x7dA\x7b\x7b/if\x7d\x7d") = strL "A") := by
  refine ⟨?_, ?_, ?_⟩
  · intro ctx
    apply replaceScan_id
    rw [matchFreeAll_congr (hbsVarStep_isNone ctx)]
    decide
  · intro ctx
    apply replaceScan_id
    rw [matchFreeAll_congr (textTagStep_isNone ctx)]
    decide
  · intro ctx ht
    have hstep : condHbsStep ctx (strL "\x7b\x7b#if user.name\x7d\x7dA\x7b\x7b/if\x7d\x7d") =
        some (evalBranches ctx [("user.name", strL "A")] [], []) := rfl
    have hout : expandCondHbs ctx (strL "\x7b\x7b#if user.name\x7d\x7dA\x7b\x7b/if\x7d\x7d") =
        evalBranches ctx [("user.name", strL "A")] [] :=
      replaceScan_single (by decide) hstep
    rw [hout]
    simp [evalBranches, ht]

/-- C10 witness: with `user.name` resolvable in the context, the variable
passes still leave the dotted directives verbatim, while the conditional
position resolves the same path and renders its branch. -/
theorem c10_dotted_keys_verbatim_witness :
    substHbsVars [("user", Value.obj [("name", Value.str "x")])]
      (strL "\x7b\x7b user.name \x7d\x7d") = strL "\x7b\x7b user.name \x7d\x7d" ∧
    substTextTags [("user", Value.obj [("name", Value.str "x")])]
      (strL "<text data=\"user.name\" />") = strL "<text data=\"user.name\" />" ∧
    expandCondHbs [("user", Value.obj [("name", Value.str "x")])]
      (strL "\x7b\x7b#if user.name\x7d\x7dA\x7b\x7b/if\x7d\x7d") = strL "A" :=
  ⟨c10_dotted_keys_verbatim.1 [("user", Value.obj [("name", Value.str "x")])],
    c10_dotted_keys_verbatim.2.1 [("user", Value.obj [("name", Value.str "x")])],
    c10_dotted_keys_verbatim.2.2 [("user", Value.obj [("name", Value.str "x")])] rfl⟩

/-! ## Claim C1 -/

/-- C1 counterexample: on the claim's own example the engine renders
`<li>Ada</li><li>Ada</li>`, not `<li>Al</li><li>Bo</li>` — the
Handlebars loop body substitutes only brace variables against the
element, so the `<text>` tag survives the loop pass and is later resolved
against the outer context (where `name` is bound to `"Ada"`). -/
theorem c1_loop_scope_counterexample :
    renderTemplate
      [("name", Value.str "Ada"),
       ("users", Value.arr [Value.obj [("name", Value.str "Al")],
         Value.obj [("name", Value.str "Bo")]])]
      "<h1>Hi \x7b\x7bname\x7d\x7d</h1><ul>\x7b\x7b#each users\x7d\x7d<li><text data=\"name\"/></li>\x7b\x7b/each\x7d\x7d</ul>" =
      .ok ("<h1>Hi Ada</h1><ul><li>Ada</li><li>Ada</li></ul>", []) ∧
    ("<h1>Hi Ada</h1><ul><li>Ada</li><li>Ada</li></ul>" : String) ≠
      "<h1>Hi Ada</h1><ul><li>Al</li><li>Bo</li></ul>" :=
  ⟨rfl, by decide⟩

/-- C1 (amended): within an XML-style loop body, both
variable-substitution dialects resolve against the loop element; within a
Handlebars-style loop body only the brace form resolves against the
element, while `<text>` tags are left in place (to be resolved later
against the outer context); on the claim's example the rendered output is
therefore `<h1>Hi Ada</h1><ul><li>Ada</li><li>Ada</li></ul>`. -/
theorem c1_loop_scope_amended :
    renderTemplate
      [("name", Value.str "Ada"),
       ("users", Value.arr [Value.obj [("name", Value.str "Al")],
         Value.obj [("name", Value.str "Bo")]])]
      "<h1>Hi \x7b\x7bname\x7d\x7d</h1><ul>\x7b\x7b#each users\x7d\x7d<li><text data=\"name\"/></li>\x7b\x7b/each\x7d\x7d</ul>" =
      .ok ("<h1>Hi Ada</h1><ul><li>Ada</li><li>Ada</li></ul>", []) ∧
    (∀ (fs : List (String × Value)) (fv : String),
      itemPropRepl (.obj fs) "name" = .ok fv →
      matchFreeAll matchHbsVarAt (strL fv) = true →
      instXmlItem (.obj fs) (strL "<text data=\"name\" />") = .ok (strL fv)) ∧
    (∀ (fs : List (String × Value)) (fv : String),
      itemPropRepl (.obj fs) "name" = .ok fv →
      instXmlItem (.obj fs) (strL "\x7b\x7b name \x7d\x7d") = .ok (strL fv)) ∧
    (∀ fs : List (String × Value),
      instHbsItem (.obj fs) (strL "<text data=\"name\" />") =
        .ok (strL "<text data=\"name\" />")) ∧
    (∀ (fs : List (String × Value)) (fv : String),
      itemPropRepl (.obj fs) "name" = .ok fv →
      instHbsItem (.obj fs) (strL "\x7b\x7b name \x7d\x7d") = .ok (strL fv)) := by
  refine ⟨rfl, ?_, ?_, ?_, ?_⟩
  · intro fs fv hfv hnb
    have h1 : replScanE matchTextTagAt (itemPropRepl (.obj fs))
        (strL "<text data=\"name\" />") = .ok (strL fv) := by
      rw [replScanE_single (by decide)
        (show matchTextTagAt (strL "<text data=\"name\" />") = some ("name", []) from rfl), hfv]
    have h2 : instXmlItem (.obj fs) (strL "<text data=\"name\" />") =
        replScanE matchHbsVarAt (itemPropRepl (.obj fs)) (strL fv) := by
      simp [instXmlItem, h1]
    rw [h2]
    exact replScanE_id hnb
  · intro fs fv hfv
    have h1 : replScanE matchTextTagAt (itemPropRepl (.obj fs))
        (strL "\x7b\x7b name \x7d\x7d") = .ok (strL "\x7b\x7b name \x7d\x7d") :=
      replScanE_id (by decide)
    have h2 : instXmlItem (.obj fs) (strL "\x7b\x7b name \x7d\x7d") =
        replScanE matchHbsVarAt (itemPropRepl (.obj fs)) (strL "\x7b\x7b name \x7d\x7d") := by
      simp [instXmlItem, h1]
    rw [h2, replScanE_single (by decide)
      (show matchHbsVarAt (strL "\x7b\x7b name \x7d\x7d") = some ("name", []) from rfl), hfv]
  · intro fs
    exact replScanE_id (by decide)
  · intro fs fv hfv
    show replScanE matchHbsVarAt (itemPropRepl (.obj fs))
      (strL "\x7b\x7b name \x7d\x7d") = .ok (strL fv)
    rw [replScanE_single (by decide)
      (show matchHbsVarAt (strL "\x7b\x7b name \x7d\x7d") = some ("name", []) from rfl), hfv]

/-- C1 witness: an element binding `name` to `"Al"` instantiated through
each loop dialect's body substitution. -/
theorem c1_loop_scope_amended_witness :
    instXmlItem (Value.obj [("name", Value.str "Al")])
      (strL "<text data=\"name\" />") = .ok (strL "Al") ∧
    instXmlItem (Value.obj [("name", Value.str "Al")])
      (strL "\x7b\x7b name \x7d\x7d") = .ok (strL "Al") ∧
    instHbsItem (Value.obj [("name", Value.str "Al")])
      (strL "<text data=\"name\" />") = .ok (strL "<text data=\"name\" />") ∧
    instHbsItem (Value.obj [("name", Value.str "Al")])
      (strL "\x7b\x7b name \x7d\x7d") = .ok (strL "Al") :=
  ⟨c1_loop_scope_amended.2.1 [("name", Value.str "Al")] "Al" rfl (by decide),
    c1_loop_scope_amended.2.2.1 [("name", Value.str "Al")] "Al" rfl,
    c1_loop_scope_amended.2.2.2.1 [("name", Value.str "Al")],
    c1_loop_scope_amended.2.2.2.2 [("name", Value.str "Al")] "Al" rfl⟩

/-! ## Claim C8 -/

/-- C8 counterexample: the render entry point has a third fatal failure
mode beyond the two claimed — rendering a loop over a sequence containing
a primitive element, with a variable directive in the loop body, rejects
with a TypeError (the `in` operator applied to a primitive), which is
neither the template-not-found error nor the structure error. -/
theorem c8_two_fatal_errors_counterexample :
    View [("/src/view/t.html", "\x7b\x7b#each xs\x7d\x7d\x7b\x7ba\x7d\x7d\x7b\x7b/each\x7d\x7d")]
      (fun _ => true) "t.html" [("xs", Value.arr [Value.str "s"])] =
      .error .typeError ∧
    ViewError.typeError ≠ ViewError.templateNotFound "t.html" ∧
    ViewError.typeError ≠ ViewError.noValidElement "t.html" :=
  ⟨rfl, by decide, by decide⟩

/-- C8 (amended): every rejection of the render entry point is one of
exactly three fatal kinds — template-not-found exactly when the
identifier does not resolve to a known resource (before any expansion
runs), a type error when a loop-body substitution is applied to a
primitive sequence element, and a structure error when the fully
substituted, trimmed markup yields no root element; in every case the
failure is a rejected outcome and no element is returned. -/
theorem c8_entry_errors_amended (templates : List (String × String))
    (parseRoot : String → Bool) (path : String) (ctx : Ctx) :
    (∀ e, View templates parseRoot path ctx = .error e →
      e = .templateNotFound path ∨ e = .typeError ∨ e = .noValidElement path) ∧
    ((templates.find? (fun kv => kv.1 == "/src/view/" ++ path)) = none ↔
      View templates parseRoot path ctx = .error (.templateNotFound path)) ∧
    (∀ raw html ws,
      (templates.find? (fun kv => kv.1 == "/src/view/" ++ path)).map (fun kv => kv.2) =
        some raw →
      renderTemplate ctx raw = .ok (html, ws) →
      parseRoot (jsTrim html) = false →
      View templates parseRoot path ctx = .error (.noValidElement path)) ∧
    (∀ raw e,
      (templates.find? (fun kv => kv.1 == "/src/view/" ++ path)).map (fun kv => kv.2) =
        some raw →
      renderTemplate ctx raw = .error e →
      View templates parseRoot path ctx = .error .typeError) := by
  refine ⟨?_, ?_, ?_, ?_⟩
  · intro e he
    simp only [View] at he
    split at he
    · injection he with h
      exact Or.inl h.symm
    · split at he
      · injection he with h
        exact Or.inr (Or.inl h.symm)
      · split at he
        · exact Except.noConfusion he
        · injection he with h
          exact Or.inr (Or.inr h.symm)
  · constructor
    · intro hnone
      simp only [View, hnone, Option.map_none']
    · intro hv
      cases hfind : templates.find? (fun kv => kv.1 == "/src/view/" ++ path) with
      | none => rfl
      | some kv =>
        simp only [View, hfind, Option.map_some'] at hv
        split at hv
        · injection hv with h
          exact absurd h.symm (by simp)
        · split at hv
          · exact Except.noConfusion hv
          · injection hv with h
            exact absurd h.symm (by simp)
  · intro raw html ws hfind hrt hp
    simp only [View, hfind, hrt, hp]
    rfl
  · intro raw e hfind hrt
    simp only [View, hfind, hrt]

/-- C8 witness: one concrete render for each fatal kind. -/
theorem c8_entry_errors_amended_witness :
    View [] (fun _ => true) "x.html" [] = .error (.templateNotFound "x.html") ∧
    View [("/src/view/p.html", "plain")] (fun _ => false) "p.html" [] =
      .error (.noValidElement "p.html") ∧
    View [("/src/view/t.html", "\x7b\x7b#each xs\x7d\x7d\x7b\x7ba\x7d\x7d\x7b\x7b/each\x7d\x7d")]
      (fun _ => true) "t.html" [("xs", Value.arr [Value.str "s"])] =
      .error .typeError :=
  ⟨(c8_entry_errors_amended [] (fun _ => true) "x.html" []).2.1.mp rfl,
    (c8_entry_errors_amended [("/src/view/p.html", "plain")] (fun _ => false)
      "p.html" []).2.2.1 "plain" "plain" [] rfl rfl rfl,
    (c8_entry_errors_amended
      [("/src/view/t.html", "\x7b\x7b#each xs\x7d\x7d\x7b\x7ba\x7d\x7d\x7b\x7b/each\x7d\x7d")]
      (fun _ => true) "t.html" [("xs", Value.arr [Value.str "s"])]).2.2.2
      "\x7b\x7b#each xs\x7d\x7d\x7b\x7ba\x7d\x7d\x7b\x7b/each\x7d\x7d" () rfl rfl⟩

end VanillaSpa
